import Mathlib

/-!
Verification of the residual-block evaluation validation core of
`internal/ceres/residual_block_utils.cc`: sentinel poisoning
(`InvalidateEvaluation`), evaluation validation (`IsEvaluationValid`),
the diagnostic dump (`EvaluationToString`) and the error-report residual
classification (`UserSuppliedNumberCommentary`).

Double-precision values are embedded as an inductive `Val` that separates
finite values (carried as rationals) from NaN and the two infinities; the
predicates of interest inspect only the finite / non-finite classification
and exact equality with the sentinel, so no floating-point rounding enters
any statement. Nullable C buffers (`double*`) become `Option (List Val)`,
and the `double**` Jacobian block array becomes an
`Option (List (Option (List Val)))` — the outer option models a null array
pointer, the inner ones null per-block pointers.
-/

namespace Ceres

/-- A double-precision value, classified as a finite number (carried as a
rational), NaN, or one of the two infinities. -/
inductive Val where
  | finite (x : ℚ)
  | nan
  | posInf
  | negInf
deriving DecidableEq

/-- Modelled from the spec: the reserved sentinel `kImpossibleValue`
(declared in `array_utils.h`, which is not in src/) — a single reserved
double-precision value "guaranteed to never arise from legitimate
computation", compared by exact equality. The concrete finite value 1e302
stands for it, written as an explicit numeral. -/
def kImpossibleValue : Val := Val.finite 100000000000000000000000000000000000000000000000000000000000000000000000000000000000000000000000000000000000000000000000000000000000000000000000000000000000000000000000000000000000000000000000000000000000000000000000000000000000000000000000000000000000000000000000000000000000000000000000000000000000000

/-- `IsFinite` on a double: true exactly for finite numbers, false for NaN
and the infinities. -/
def IsFinite : Val → Bool
  | Val.finite _ => true
  | Val.nan => false
  | Val.posInf => false
  | Val.negInf => false

/-- Modelled from the spec: the per-element test of the Array Validator
(`IsUserSuppliedValueValid` of `array_utils.cc`, which is not in src/):
an element is valid iff it is finite and does not equal the sentinel
(spec §4.2). -/
def IsUserSuppliedValueValid (x : Val) : Bool :=
  IsFinite x && decide (x ≠ kImpossibleValue)

/-- A nullable buffer of doubles (`double*`): `none` is a null pointer. -/
abbrev Buf := Option (List Val)

/-- A nullable array of nullable Jacobian block buffers (`double**`). -/
abbrev Jac := Option (List Buf)

/-- Modelled from the spec: the Array Validator (`IsArrayValid` of
`array_utils.cc`, which is not in src/), spec §4.2: a null buffer pointer
with positive required length is invalid (absent-but-required) and
vacuously valid at required length zero; a present buffer is valid iff
each of its first `size` elements is finite and not the sentinel. -/
def IsArrayValid (size : Nat) (x : Buf) : Bool :=
  match x with
  | none => size == 0
  | some xs => (List.range size).all fun i => IsUserSuppliedValueValid (xs.getD i Val.nan)

/-- The effect of the poisoning loop `for (i < size) x[i] = kImpossibleValue`
on the list standing for the buffer's memory: the first `size` cells become
the sentinel, cells beyond `size` are untouched. -/
def invalidateList : Nat → List Val → List Val
  | _, [] => []
  | 0, xs => xs
  | Nat.succ n, _ :: xs => kImpossibleValue :: invalidateList n xs

/-- Modelled from the spec: Sentinel Poisoning of one buffer
(`InvalidateArray` of `array_utils.cc`, which is not in src/), spec §4.1:
overwrite each of the first `size` addressable cells of a present buffer
with the sentinel; a null buffer is skipped. -/
def InvalidateArray (size : Nat) (x : Buf) : Buf :=
  match x with
  | none => none
  | some xs => some (invalidateList size xs)

/-- Modelled from the spec: the shape metadata of a residual block
(`ResidualBlock` of `residual_block.h`, which is not in src/): an ordered
sequence of parameter block sizes together with the residual count. -/
structure ResidualBlock where
  parameterBlockSizes : List Nat
  numResiduals : Nat
deriving DecidableEq

/-- `block.NumParameterBlocks()`. -/
def ResidualBlock.NumParameterBlocks (b : ResidualBlock) : Nat :=
  b.parameterBlockSizes.length

/-- `block.NumResiduals()`. -/
def ResidualBlock.NumResiduals (b : ResidualBlock) : Nat :=
  b.numResiduals

/-- `block.parameter_blocks()[i]->Size()`. -/
def ResidualBlock.Size (b : ResidualBlock) (i : Nat) : Nat :=
  b.parameterBlockSizes.getD i 0

/-- `IsEvaluationValid` of `residual_block_utils.cc` (lines 217-239): the
residual vector must pass the Array Validator at length `num_residuals`;
when the Jacobian block array is non-null, each of the
`num_parameter_blocks` blocks is handed as-is to the Array Validator at
length `num_residuals * parameter_block_size`. The `parameters` and `cost`
arguments are taken, as in the source, but never read. -/
def IsEvaluationValid (block : ResidualBlock) (parameters : List (List Val))
    (cost : Buf) (residuals : Buf) (jacobians : Jac) : Bool :=
  let num_parameter_blocks := block.NumParameterBlocks
  let num_residuals := block.NumResiduals
  if !IsArrayValid num_residuals residuals then
    false
  else
    match jacobians with
    | none => true
    | some jac =>
      (List.range num_parameter_blocks).all fun i =>
        IsArrayValid (num_residuals * block.Size i) (jac.getD i none)

/-- The loop of `InvalidateEvaluation` over the Jacobian block array
(lines 59-62): each entry `jacobians[i]` with `i < num_parameter_blocks`
is poisoned at length `num_residuals * parameter_block_size`; entries
beyond the loop bound are untouched. The counter `i` is the index of the
head of the remaining list. -/
def invalidateJacobianList (block : ResidualBlock) (num_residuals : Nat) :
    Nat → List Buf → List Buf
  | _, [] => []
  | i, ji :: rest =>
    (if i < block.NumParameterBlocks then
        InvalidateArray (num_residuals * block.Size i) ji
      else ji)
      :: invalidateJacobianList block num_residuals (i + 1) rest

/-- `InvalidateEvaluation` of `residual_block_utils.cc` (lines 49-64):
poison the 1-element cost scalar, the `num_residuals`-element residual
vector and, when the Jacobian block array is non-null, each of its
`num_parameter_blocks` blocks. The returned triple is the memory after the
call: (cost, residuals, jacobians). -/
def InvalidateEvaluation (block : ResidualBlock) (cost : Buf) (residuals : Buf)
    (jacobians : Jac) : Buf × Buf × Jac :=
  let num_residuals := block.NumResiduals
  (InvalidateArray 1 cost,
   InvalidateArray num_residuals residuals,
   match jacobians with
   | none => none
   | some jac => some (invalidateJacobianList block num_residuals 0 jac))

/-- `UserSuppliedNumberCommentary` of `residual_block_utils.cc`
(lines 117-125). -/
def UserSuppliedNumberCommentary (x : Val) : String :=
  if !IsFinite x then
    "ERROR: Value is not finite"
  else if x = kImpossibleValue then
    "ERROR: Value was not set by cost function"
  else
    "OK"

/-- A value the user legitimately wrote: finite and distinct from the
sentinel. -/
def GoodVal (v : Val) : Prop :=
  IsFinite v = true ∧ v ≠ kImpossibleValue

instance : DecidablePred GoodVal := fun v =>
  inferInstanceAs (Decidable (IsFinite v = true ∧ v ≠ kImpossibleValue))

/-- A value the validator must reject: the sentinel, NaN, or one of the two
infinities. -/
def BadVal (v : Val) : Prop :=
  v = kImpossibleValue ∨ v = Val.nan ∨ v = Val.posInf ∨ v = Val.negInf

instance : DecidablePred BadVal := fun v =>
  inferInstanceAs (Decidable (_ ∨ _ ∨ _ ∨ _))

theorem isUserSuppliedValueValid_eq_true_iff (x : Val) :
    IsUserSuppliedValueValid x = true ↔ GoodVal x := by
  simp [IsUserSuppliedValueValid, GoodVal]

theorem isUserSuppliedValueValid_eq_false_of_bad {x : Val} (h : BadVal x) :
    IsUserSuppliedValueValid x = false := by
  rcases h with h | h | h | h <;> subst h <;> rfl

theorem isArrayValid_some_iff (size : Nat) (xs : List Val) :
    IsArrayValid size (some xs) = true ↔
      ∀ i < size, IsUserSuppliedValueValid (xs.getD i Val.nan) = true := by
  simp [IsArrayValid, List.all_eq_true, List.mem_range]

theorem isEvaluationValid_eq_true_iff (block : ResidualBlock)
    (parameters : List (List Val)) (cost : Buf) (residuals : Buf) (jacobians : Jac) :
    IsEvaluationValid block parameters cost residuals jacobians = true ↔
      IsArrayValid block.NumResiduals residuals = true ∧
      ∀ jac, jacobians = some jac → ∀ i < block.NumParameterBlocks,
        IsArrayValid (block.NumResiduals * block.Size i) (jac.getD i none) = true := by
  cases hr : IsArrayValid block.NumResiduals residuals <;>
    cases jacobians <;>
      simp [IsEvaluationValid, hr, List.all_eq_true, List.mem_range]

/-- C1: with the residual vector present and all of its first
`numResiduals` entries finite and distinct from the sentinel, and every
required Jacobian block present with all of its `numResiduals * size_i`
entries finite and distinct from the sentinel, `IsEvaluationValid` returns
true — both when the Jacobian block array is absent and when it is the
supplied array. -/
theorem isEvaluationValid_of_valid_buffers (block : ResidualBlock)
    (parameters : List (List Val)) (cost : Buf) (rs : List Val) (jac : List Buf)
    (hrs : ∀ i < block.NumResiduals, GoodVal (rs.getD i Val.nan))
    (hjac : ∀ i < block.NumParameterBlocks,
      (jac.getD i none).isSome = true ∧
      ∀ j < block.NumResiduals * block.Size i,
        GoodVal (((jac.getD i none).getD []).getD j Val.nan)) :
    IsEvaluationValid block parameters cost (some rs) none = true ∧
    IsEvaluationValid block parameters cost (some rs) (some jac) = true := by
  have hres : IsArrayValid block.NumResiduals (some rs) = true := by
    rw [isArrayValid_some_iff]
    intro i hi
    exact (isUserSuppliedValueValid_eq_true_iff _).2 (hrs i hi)
  constructor
  · rw [isEvaluationValid_eq_true_iff]
    exact ⟨hres, fun j hj => by cases hj⟩
  · rw [isEvaluationValid_eq_true_iff]
    refine ⟨hres, fun j hj i hi => ?_⟩
    obtain ⟨hsome, hgood⟩ := hjac i hi
    cases hj
    cases hcase : jac.getD i none with
    | none => rw [hcase] at hsome; cases hsome
    | some js =>
      rw [isArrayValid_some_iff]
      intro k hk
      have := hgood k hk
      rw [hcase] at this
      exact (isUserSuppliedValueValid_eq_true_iff _).2 this

/-- Witness for C1 at spec scenario A: one parameter block of size 3, two
residuals, residuals `[1.0, 2.0]`, Jacobian `[0.1, 0.2, 0.3, 0.4, 0.5, 0.6]`. -/
theorem isEvaluationValid_of_valid_buffers_witness :
    IsEvaluationValid ⟨[3], 2⟩
      [[Val.finite 1, Val.finite 1, Val.finite 1]] (some [Val.finite 0])
      (some [Val.finite 1, Val.finite 2])
      (some [some [Val.finite (Rat.mk' 1 10), Val.finite (Rat.mk' 1 5),
                   Val.finite (Rat.mk' 3 10), Val.finite (Rat.mk' 2 5),
                   Val.finite (Rat.mk' 1 2), Val.finite (Rat.mk' 3 5)]]) = true :=
  (isEvaluationValid_of_valid_buffers ⟨[3], 2⟩
    [[Val.finite 1, Val.finite 1, Val.finite 1]] (some [Val.finite 0])
    [Val.finite 1, Val.finite 2]
    [some [Val.finite (Rat.mk' 1 10), Val.finite (Rat.mk' 1 5),
           Val.finite (Rat.mk' 3 10), Val.finite (Rat.mk' 2 5),
           Val.finite (Rat.mk' 1 2), Val.finite (Rat.mk' 3 5)]]
    (by decide) (by decide)).2

/-- C2: if any required element — an entry of the residual vector at an
index below `numResiduals`, or an entry of a present Jacobian block at an
index below `numResiduals * size_i` — equals the sentinel or is NaN or
+Infinity or -Infinity, `IsEvaluationValid` returns false. -/
theorem isEvaluationValid_false_of_bad_element (block : ResidualBlock)
    (parameters : List (List Val)) (cost : Buf) (rs : List Val) (jacobians : Jac)
    (h : (∃ i < block.NumResiduals, BadVal (rs.getD i Val.nan)) ∨
         (∃ jac, jacobians = some jac ∧ ∃ i < block.NumParameterBlocks, ∃ js,
            jac.getD i none = some js ∧
            ∃ j < block.NumResiduals * block.Size i, BadVal (js.getD j Val.nan))) :
    IsEvaluationValid block parameters cost (some rs) jacobians = false := by
  rw [Bool.eq_false_iff]
  intro htrue
  rw [isEvaluationValid_eq_true_iff] at htrue
  obtain ⟨hres, hjac⟩ := htrue
  rcases h with ⟨i, hi, hbad⟩ | ⟨jac, hj, i, hi, js, hjs, j, hjlt, hbad⟩
  · rw [isArrayValid_some_iff] at hres
    have := hres i hi
    rw [isUserSuppliedValueValid_eq_false_of_bad hbad] at this
    cases this
  · have := hjac jac hj i hi
    rw [hjs, isArrayValid_some_iff] at this
    have := this j hjlt
    rw [isUserSuppliedValueValid_eq_false_of_bad hbad] at this
    cases this

/-- Witness for C2 at spec scenario B: residuals `[1.0, sentinel]` with the
same shape as scenario A; the entry at index 1 is bad and the verdict is
false. -/
theorem isEvaluationValid_false_of_bad_element_witness :
    BadVal ([Val.finite 1, kImpossibleValue].getD 1 Val.nan) ∧
    IsEvaluationValid ⟨[3], 2⟩ [] none (some [Val.finite 1, kImpossibleValue])
      (some [some (List.replicate 6 (Val.finite 1))]) = false :=
  ⟨by decide,
   isEvaluationValid_false_of_bad_element ⟨[3], 2⟩ [] none
     [Val.finite 1, kImpossibleValue]
     (some [some (List.replicate 6 (Val.finite 1))])
     (Or.inl ⟨1, by decide, by decide⟩)⟩

/-- C4: a null residual vector pointer is rejected whenever
`numResiduals > 0`; at required length 0 a null buffer is vacuously valid
for the Array Validator. -/
theorem isEvaluationValid_false_of_null_residuals (block : ResidualBlock)
    (parameters : List (List Val)) (cost : Buf) (jacobians : Jac)
    (h : 0 < block.NumResiduals) :
    IsEvaluationValid block parameters cost none jacobians = false ∧
    IsArrayValid 0 none = true := by
  refine ⟨?_, rfl⟩
  rw [Bool.eq_false_iff]
  intro htrue
  rw [isEvaluationValid_eq_true_iff] at htrue
  have hres := htrue.1
  have : (block.NumResiduals == 0) = true := hres
  rw [Nat.beq_eq_true_eq] at this
  omega

/-- Witness for C4: a block with two residuals and a null residual buffer. -/
theorem isEvaluationValid_false_of_null_residuals_witness :
    0 < ResidualBlock.NumResiduals ⟨[3], 2⟩ ∧
    IsEvaluationValid ⟨[3], 2⟩ [] none none none = false :=
  ⟨by decide,
   (isEvaluationValid_false_of_null_residuals ⟨[3], 2⟩ [] none none (by decide)).1⟩

/-- C10: the verdict of `IsEvaluationValid` is a function of the residual
and Jacobian buffers alone — two calls with identical residual and Jacobian
buffers but arbitrary differing cost contents and parameter contents return
the same boolean. -/
theorem isEvaluationValid_ignores_cost_and_parameters (block : ResidualBlock)
    (parameters1 parameters2 : List (List Val)) (cost1 cost2 : Buf)
    (residuals : Buf) (jacobians : Jac) :
    IsEvaluationValid block parameters1 cost1 residuals jacobians =
      IsEvaluationValid block parameters2 cost2 residuals jacobians := rfl

theorem invalidateList_eq_replicate :
    ∀ (xs : List Val) (n : Nat), xs.length = n →
      invalidateList n xs = List.replicate n kImpossibleValue
  | [], n, h => by
    simp only [List.length_nil] at h
    subst h
    rfl
  | x :: xs, _, rfl => by
    simp [invalidateList, List.replicate_succ,
      invalidateList_eq_replicate xs xs.length rfl]

theorem isUserSuppliedValueValid_invalidateList_head (n : Nat) (xs : List Val)
    (hn : 0 < n) :
    IsUserSuppliedValueValid ((invalidateList n xs).getD 0 Val.nan) = false := by
  cases xs with
  | nil =>
    cases n with
    | zero => omega
    | succ m => rfl
  | cons x xs =>
    cases n with
    | zero => omega
    | succ m => simp [invalidateList, IsUserSuppliedValueValid]

theorem isArrayValid_invalidateArray (n : Nat) (x : Buf) (hn : 0 < n) :
    IsArrayValid n (InvalidateArray n x) = false := by
  cases x with
  | none =>
    have : (n == 0) = false := by simp; omega
    simpa [InvalidateArray, IsArrayValid] using this
  | some xs =>
    rw [Bool.eq_false_iff]
    intro htrue
    have := (isArrayValid_some_iff _ _).1 htrue 0 hn
    rw [isUserSuppliedValueValid_invalidateList_head n xs hn] at this
    cases this

theorem invalidateJacobianList_length (block : ResidualBlock) (nr : Nat) :
    ∀ (l : List Buf) (i0 : Nat), (invalidateJacobianList block nr i0 l).length = l.length
  | [], _ => rfl
  | ji :: rest, i0 => by
    simp [invalidateJacobianList, invalidateJacobianList_length block nr rest (i0 + 1)]

theorem invalidateJacobianList_getD (block : ResidualBlock) (nr : Nat) :
    ∀ (l : List Buf) (i0 k : Nat), k < l.length →
      (invalidateJacobianList block nr i0 l).getD k none =
        if i0 + k < block.NumParameterBlocks then
          InvalidateArray (nr * block.Size (i0 + k)) (l.getD k none)
        else
          l.getD k none
  | [], _, k, h => by simp at h
  | ji :: rest, i0, 0, h => by simp [invalidateJacobianList]
  | ji :: rest, i0, k + 1, h => by
    have ih := invalidateJacobianList_getD block nr rest (i0 + 1) k
      (by simpa using Nat.lt_of_succ_lt_succ h)
    rw [show i0 + 1 + k = i0 + (k + 1) by omega] at ih
    simpa [invalidateJacobianList] using ih

/-- C5: for buffers of the contracted lengths, `InvalidateEvaluation`
overwrites exactly the addressable elements with the sentinel: the
1-element cost scalar, the `numResiduals` residual entries, and — when the
Jacobian block array is present — the `numResiduals * size_i` entries of
each present block `i`, while a null per-block pointer stays null, the
array keeps its length, and a null Jacobian array is left alone. -/
theorem invalidateEvaluation_poisons (block : ResidualBlock)
    (cs rs : List Val) (jac : List Buf)
    (hcs : cs.length = 1) (hrs : rs.length = block.NumResiduals)
    (hjac : jac.length = block.NumParameterBlocks)
    (hblocks : ∀ i < block.NumParameterBlocks,
      Option.all (fun js => js.length == block.NumResiduals * block.Size i)
        (jac.getD i none) = true) :
    (InvalidateEvaluation block (some cs) (some rs) (some jac)).1 =
      some [kImpossibleValue] ∧
    (InvalidateEvaluation block (some cs) (some rs) (some jac)).2.1 =
      some (List.replicate block.NumResiduals kImpossibleValue) ∧
    (∃ L : List Buf,
      (InvalidateEvaluation block (some cs) (some rs) (some jac)).2.2 = some L ∧
      L.length = jac.length ∧
      ∀ i < block.NumParameterBlocks,
        L.getD i none = (jac.getD i none).map
          (fun _ => List.replicate (block.NumResiduals * block.Size i) kImpossibleValue)) ∧
    (InvalidateEvaluation block (some cs) (some rs) none).2.2 = none := by
  refine ⟨?_, ?_, ?_, rfl⟩
  · show InvalidateArray 1 (some cs) = some [kImpossibleValue]
    rw [InvalidateArray, invalidateList_eq_replicate cs 1 hcs]
    rfl
  · show InvalidateArray block.NumResiduals (some rs) =
      some (List.replicate block.NumResiduals kImpossibleValue)
    rw [InvalidateArray, invalidateList_eq_replicate rs block.NumResiduals hrs]
  · refine ⟨invalidateJacobianList block block.NumResiduals 0 jac, rfl,
      invalidateJacobianList_length block block.NumResiduals jac 0, ?_⟩
    intro i hi
    have hilen : i < jac.length := by rw [hjac]; exact hi
    have hget := invalidateJacobianList_getD block block.NumResiduals jac 0 i hilen
    rw [Nat.zero_add] at hget
    rw [hget, if_pos hi]
    cases hcase : jac.getD i none with
    | none => rfl
    | some js =>
      have hall := hblocks i hi
      rw [hcase, Option.all_some] at hall
      have hlen : js.length = block.NumResiduals * block.Size i := by
        simpa using hall
      rw [InvalidateArray, invalidateList_eq_replicate js _ hlen]
      rfl

/-- Witness for C5: one parameter block of size 2, one residual; all three
buffers present with exact lengths. -/
theorem invalidateEvaluation_poisons_witness :
    (InvalidateEvaluation ⟨[2], 1⟩ (some [Val.finite 3]) (some [Val.finite 4])
      (some [some [Val.finite 5, Val.finite 6]])).2.1 =
      some (List.replicate (ResidualBlock.NumResiduals ⟨[2], 1⟩) kImpossibleValue) :=
  (invalidateEvaluation_poisons ⟨[2], 1⟩ [Val.finite 3] [Val.finite 4]
    [some [Val.finite 5, Val.finite 6]]
    (by decide) (by decide) (by decide) (by decide)).2.1

/-- C6: poison-then-validate round trip — for any block with
`numResiduals ≥ 1` and any buffers, running `IsEvaluationValid` on the
buffers exactly as `InvalidateEvaluation` leaves them returns false. -/
theorem poison_then_validate_false (block : ResidualBlock)
    (parameters : List (List Val)) (cost residuals : Buf) (jacobians : Jac)
    (h : 1 ≤ block.NumResiduals) :
    IsEvaluationValid block parameters
      (InvalidateEvaluation block cost residuals jacobians).1
      (InvalidateEvaluation block cost residuals jacobians).2.1
      (InvalidateEvaluation block cost residuals jacobians).2.2 = false := by
  rw [Bool.eq_false_iff]
  intro htrue
  rw [isEvaluationValid_eq_true_iff] at htrue
  have hres : IsArrayValid block.NumResiduals
      (InvalidateArray block.NumResiduals residuals) = true := htrue.1
  have hfalse := isArrayValid_invalidateArray block.NumResiduals residuals h
  rw [hres] at hfalse
  cases hfalse

/-- Witness for C6: a block with one residual, all buffers present. -/
theorem poison_then_validate_false_witness :
    IsEvaluationValid ⟨[2], 1⟩ []
      (InvalidateEvaluation ⟨[2], 1⟩ (some [Val.finite 3]) (some [Val.finite 4])
        (some [some [Val.finite 5, Val.finite 6]])).1
      (InvalidateEvaluation ⟨[2], 1⟩ (some [Val.finite 3]) (some [Val.finite 4])
        (some [some [Val.finite 5, Val.finite 6]])).2.1
      (InvalidateEvaluation ⟨[2], 1⟩ (some [Val.finite 3]) (some [Val.finite 4])
        (some [some [Val.finite 5, Val.finite 6]])).2.2 = false :=
  poison_then_validate_false ⟨[2], 1⟩ [] (some [Val.finite 3]) (some [Val.finite 4])
    (some [some [Val.finite 5, Val.finite 6]]) (by decide)

/-- C3 (divergence exhibit): with a valid one-entry residual vector, a null
Jacobian block array is skipped and the verdict is true, and the single
present residual entry passes the Array Validator; yet with the Jacobian
block array present and its only entry null, `IsEvaluationValid` returns
false — the null entry alone flips the verdict, because line 232 hands it
to the Array Validator at positive length `numResiduals * size_0 = 1` and
a null buffer at positive required length is invalid (§4.2). -/
theorem nullJacobianEntry_flips_verdict :
    IsEvaluationValid ⟨[1], 1⟩ [] (some [Val.finite 2]) (some [Val.finite 1])
        none = true ∧
    IsArrayValid 1 (some [Val.finite 1]) = true ∧
    IsEvaluationValid ⟨[1], 1⟩ [] (some [Val.finite 2]) (some [Val.finite 1])
        (some [none]) = false := by
  decide

/-- The residual section of `EvaluationErrorReportString` (src lines
176-186): the section is emitted iff the residual vector fails the Array
Validator, and the loop prints a line for entry `i` iff the entry is
invalid or `num_residuals < 50`. Modelled from the spec: the print
statement itself (line 182) is an incomplete draft — it passes neither the
destination string nor the index and value its format string
`"  r[%02d] = %-15.4e     %s\x0a"` requires — so, per spec §4.5, a printed
line is modelled as the triple of the entry index, its raw value, and the
commentary string. -/
def ResidualReportLines (num_residuals : Nat) (rs : List Val) :
    List (Nat × Val × String) :=
  if !IsArrayValid num_residuals (some rs) then
    (List.range num_residuals).filterMap fun i =>
      if !IsUserSuppliedValueValid (rs.getD i Val.nan) || num_residuals < 50 then
        some (i, rs.getD i Val.nan, UserSuppliedNumberCommentary (rs.getD i Val.nan))
      else none
  else []

/-- C7 (evaluation at the failing input, spec scenario B, plus the
threshold case): with residuals `[1.0, sentinel]` the verdict is false and
the residual section enumerates both entries (2 < 50), citing index 1 with
the not-set-by-cost-function commentary; with 49 good entries followed by
the sentinel in a 50-residual block, only the offending entry is printed;
and the two commentary strings carry the "not finite" and
"not set by cost function" tags. -/
theorem residualReport_scenarioB :
    IsEvaluationValid ⟨[3], 2⟩ [] (some [Val.finite 0])
        (some [Val.finite 1, kImpossibleValue])
        (some [some (List.replicate 6 (Val.finite 2))]) = false ∧
    ResidualReportLines 2 [Val.finite 1, kImpossibleValue] =
      [(0, Val.finite 1, "OK"),
       (1, kImpossibleValue, "ERROR: Value was not set by cost function")] ∧
    ResidualReportLines 50
        (List.replicate 49 (Val.finite 1) ++ [kImpossibleValue]) =
      [(49, kImpossibleValue, "ERROR: Value was not set by cost function")] ∧
    UserSuppliedNumberCommentary Val.nan = "ERROR: Value is not finite" ∧
    "ERROR: Value was not set by cost function" =
      "ERROR: Value was " ++ "not set by cost function" ∧
    "ERROR: Value is not finite" = "ERROR: Value is " ++ "not finite" := by
  exact ⟨by decide, by decide, by decide, rfl, rfl, rfl⟩

/-- C8 (evaluation at the failing input): block with two parameter blocks
of size 1 and one residual; residuals `[1.0]` are valid, Jacobian block 0
is `[sentinel]`, block 1 is `[1.0]`. The draft validity test of step (4)
(line 193) validates the residual buffer at length
`parameter_block_size * num_residuals`, which passes here for every block,
so the draft finds no Jacobian problem and emits no Jacobian section; yet
block 0's own buffer fails the Array Validator at that same length, and
`IsEvaluationValid` rejects the evaluation. -/
theorem jacobianReport_draft_misses_bad_block :
    IsArrayValid
        (ResidualBlock.Size ⟨[1, 1], 1⟩ 0 * ResidualBlock.NumResiduals ⟨[1, 1], 1⟩)
        (some [Val.finite 1]) = true ∧
    IsArrayValid
        (ResidualBlock.Size ⟨[1, 1], 1⟩ 0 * ResidualBlock.NumResiduals ⟨[1, 1], 1⟩)
        (some [kImpossibleValue]) = false ∧
    IsEvaluationValid ⟨[1, 1], 1⟩ [] (some [Val.finite 0]) (some [Val.finite 1])
        (some [some [kImpossibleValue], some [Val.finite 1]]) = false := by
  decide

/-- One rendered cell of the diagnostic dump. -/
inductive Cell where
  | notComputed
  | uninitialized
  | value (v : Val)
deriving DecidableEq

/-- Modelled from the spec: `AppendArrayToString` of `array_utils.cc`
(not in src/), per §4.4: each of the `size` cells of a null buffer renders
as the marker "Not Computed"; a present cell equal to the sentinel renders
as "Uninitialized"; otherwise the raw value is rendered, non-finite values
verbatim. -/
def AppendArrayToString (size : Nat) (x : Buf) : List Cell :=
  (List.range size).map fun i =>
    match x with
    | none => Cell.notComputed
    | some xs =>
      if xs.getD i Val.nan = kImpossibleValue then Cell.uninitialized
      else Cell.value (xs.getD i Val.nan)

/-- The text of one rendered cell. -/
def renderCell : Cell → String
  | Cell.notComputed => "Not Computed"
  | Cell.uninitialized => "Uninitialized"
  | Cell.value (Val.finite q) => toString q
  | Cell.value Val.nan => "nan"
  | Cell.value Val.posInf => "inf"
  | Cell.value Val.negInf => "-inf"

/-- Pointer arithmetic `x + off` on a nullable buffer: a null pointer stays
null, a present buffer is advanced by `off` cells. -/
def bufDrop (x : Buf) (off : Nat) : Buf :=
  x.map fun xs => xs.drop off

/-- The Jacobian cell pointer of the dump (lines 103-107): null when the
Jacobian block array or the block's own pointer is null, else the block
pointer offset by `k * parameter_block_size + j`. -/
def dumpJacPointer (jacobians : Jac) (parameter_block_size : Nat)
    (i j k : Nat) : Buf :=
  match jacobians with
  | none => none
  | some jac => bufDrop (jac.getD i none) (k * parameter_block_size + j)

/-- One line of the dump for scalar parameter `j` of parameter block `i`
(lines 99-110): the parameter's value rendered as a 1-element array at
`parameters[i] + j`, then one Jacobian cell per residual `k`. -/
def dumpLine (block : ResidualBlock) (parameters : List (List Val))
    (jacobians : Jac) (i j : Nat) : Cell × List Cell :=
  ((AppendArrayToString 1 (bufDrop (some (parameters.getD i [])) j)).getD 0
      Cell.notComputed,
   (List.range block.NumResiduals).map fun k =>
     (AppendArrayToString 1 (dumpJacPointer jacobians (block.Size i) i j k)).getD 0
       Cell.notComputed)

/-- `EvaluationToString` of `residual_block_utils.cc` (lines 66-115),
rendered structurally: the residual vector's cells, then — per parameter
block `i` — one line per scalar parameter `j`. The fixed header and
separator text around them carries no data and is omitted; the `cost`
argument is checked non-null by the source and never printed. Total for
any buffers — the dump is producible regardless of validity. -/
def EvaluationToString (block : ResidualBlock) (parameters : List (List Val))
    (cost : Buf) (residuals : Buf) (jacobians : Jac) :
    List Cell × List (List (Cell × List Cell)) :=
  (AppendArrayToString block.NumResiduals residuals,
   (List.range block.NumParameterBlocks).map fun i =>
     (List.range (block.Size i)).map fun j => dumpLine block parameters jacobians i j)

theorem range_map_getD {α : Type} (n m : Nat) (f : Nat → α) (d : α) (h : m < n) :
    ((List.range n).map f).getD m d = f m := by
  have hl : m < ((List.range n).map f).length := by simpa using h
  rw [List.getD_eq_getElem _ d hl]
  simp

theorem getD_drop_zero {α : Type} :
    ∀ (xs : List α) (j : Nat) (d : α), (xs.drop j).getD 0 d = xs.getD j d
  | [], j, d => by simp
  | x :: xs, 0, d => rfl
  | x :: xs, j + 1, d => by
    simp only [List.drop_succ_cons, List.getD_cons_succ]
    exact getD_drop_zero xs j d

theorem appendArrayToString_one_getD (x : Buf) :
    (AppendArrayToString 1 x).getD 0 Cell.notComputed =
      match x with
      | none => Cell.notComputed
      | some xs =>
        if xs.getD 0 Val.nan = kImpossibleValue then Cell.uninitialized
        else Cell.value (xs.getD 0 Val.nan) := by
  cases x <;> rfl

/-- C9: layout of the diagnostic dump. For every `i < numParameterBlocks`,
`j < size_i` and `k < numResiduals`: the dump has one row group per
parameter block and one line per scalar parameter; the line's first cell
renders the parameter value `parameters[i][j]` ("Uninitialized" if it is
the sentinel); its `k`-th Jacobian cell is read from flat offset
`k * size_i + j` of block `i`'s buffer — "Not Computed" when the block's
pointer (or the whole Jacobian array) is absent, "Uninitialized" where the
sentinel is found, the raw value otherwise — and the two markers render as
the literal strings. -/
theorem evaluationToString_layout (block : ResidualBlock)
    (parameters : List (List Val)) (cost : Buf) (residuals : Buf)
    (jac : List Buf) (i j k : Nat)
    (hi : i < block.NumParameterBlocks) (hj : j < block.Size i)
    (hk : k < block.NumResiduals) :
    (EvaluationToString block parameters cost residuals (some jac)).2.length =
      block.NumParameterBlocks ∧
    ((EvaluationToString block parameters cost residuals (some jac)).2.getD i []).length =
      block.Size i ∧
    (((EvaluationToString block parameters cost residuals (some jac)).2.getD i []).getD j
        (Cell.notComputed, [])).1 =
      (if (parameters.getD i []).getD j Val.nan = kImpossibleValue then
        Cell.uninitialized
       else Cell.value ((parameters.getD i []).getD j Val.nan)) ∧
    (((EvaluationToString block parameters cost residuals (some jac)).2.getD i []).getD j
        (Cell.notComputed, [])).2.length = block.NumResiduals ∧
    ((((EvaluationToString block parameters cost residuals (some jac)).2.getD i []).getD j
        (Cell.notComputed, [])).2.getD k Cell.notComputed) =
      (match jac.getD i none with
       | none => Cell.notComputed
       | some js =>
         if js.getD (k * block.Size i + j) Val.nan = kImpossibleValue then
           Cell.uninitialized
         else Cell.value (js.getD (k * block.Size i + j) Val.nan)) ∧
    ((((EvaluationToString block parameters cost residuals none).2.getD i []).getD j
        (Cell.notComputed, [])).2.getD k Cell.notComputed) = Cell.notComputed ∧
    renderCell Cell.notComputed = "Not Computed" ∧
    renderCell Cell.uninitialized = "Uninitialized" := by
  have hrow : ∀ jacobians : Jac,
      (EvaluationToString block parameters cost residuals jacobians).2.getD i [] =
        (List.range (block.Size i)).map fun j => dumpLine block parameters jacobians i j := by
    intro jacobians
    exact range_map_getD _ _ _ _ hi
  have hline : ∀ jacobians : Jac,
      ((EvaluationToString block parameters cost residuals jacobians).2.getD i []).getD j
          (Cell.notComputed, []) = dumpLine block parameters jacobians i j := by
    intro jacobians
    rw [hrow jacobians]
    exact range_map_getD _ _ _ _ hj
  refine ⟨by simp [EvaluationToString], ?_, ?_, ?_, ?_, ?_, rfl, rfl⟩
  · rw [hrow (some jac)]; simp
  · rw [hline (some jac)]
    show (AppendArrayToString 1 (bufDrop (some (parameters.getD i [])) j)).getD 0
        Cell.notComputed = _
    rw [appendArrayToString_one_getD]
    simp [bufDrop, getD_drop_zero]
  · rw [hline (some jac)]
    show ((List.range block.NumResiduals).map _).length = _
    simp
  · rw [hline (some jac)]
    show ((List.range block.NumResiduals).map _).getD k Cell.notComputed = _
    rw [range_map_getD _ _ _ _ hk, appendArrayToString_one_getD]
    show (match bufDrop (jac.getD i none) (k * block.Size i + j) with
      | none => Cell.notComputed
      | some xs =>
        if xs.getD 0 Val.nan = kImpossibleValue then Cell.uninitialized
        else Cell.value (xs.getD 0 Val.nan)) = _
    cases hcase : jac.getD i none with
    | none => rfl
    | some js => simp [bufDrop, getD_drop_zero]
  · rw [hline none]
    show ((List.range block.NumResiduals).map _).getD k Cell.notComputed = _
    rw [range_map_getD _ _ _ _ hk]
    rfl

/-- Witness for C9 at spec scenario A's shape: one parameter block of
size 3, two residuals, Jacobian block `[10,20,30,40,50,60]`; the cell for
parameter 1 under residual 1 is the entry at flat offset
`1 * 3 + 1 = 4`, the raw value 50. -/
theorem evaluationToString_layout_witness :
    ((((EvaluationToString ⟨[3], 2⟩ [[Val.finite 7, Val.finite 8, Val.finite 9]]
        (some [Val.finite 0]) (some [Val.finite 1, Val.finite 2])
        (some [some [Val.finite 10, Val.finite 20, Val.finite 30,
                     Val.finite 40, Val.finite 50, Val.finite 60]])).2.getD 0 []).getD 1
        (Cell.notComputed, [])).2.getD 1 Cell.notComputed) = Cell.value (Val.finite 50) := by
  have h := evaluationToString_layout ⟨[3], 2⟩
    [[Val.finite 7, Val.finite 8, Val.finite 9]] (some [Val.finite 0])
    (some [Val.finite 1, Val.finite 2])
    [some [Val.finite 10, Val.finite 20, Val.finite 30,
           Val.finite 40, Val.finite 50, Val.finite 60]]
    0 1 1 (by decide) (by decide) (by decide)
  rw [h.2.2.2.2.1]
  decide

end Ceres
